import Mathlib

/-!
Verification of the RPC bridge in `lib/rpc.js`.

The file shallowly embeds the two sides of the bridge:

* the host-side `Server` (object registry, id minting, dispatch of
  `create` / `lookup` / `dispose` / invoke messages, event forwarding), and
* the remote-side bootstrap (`EventEmitter` with `on` / `off` / `emit_`,
  and the `Client` with `sendMessage_` / `onMessage_` / `wrap_`).

JavaScript `Map`s are modelled as insertion-ordered association lists
(`mapGet` / `mapSet` / `mapDelete` mirror `Map.get` / `Map.set` /
`Map.delete`).  Values carried over the wire are modelled by `Val`.
A `TypeError` raised by touching `undefined`, and an error thrown by an
invoked host method, are modelled by `JsError`; a handler that throws is
an `Except.error` result carrying the state as mutated before the throw.
-/

/-- Wire-transferable values (plain data). -/
inductive Val where
  | num (n : Int)
  | str (s : String)
  | bool (b : Bool)
  | undef
deriving DecidableEq

/-- Runtime errors: `typeError` models a TypeError raised by using
`undefined` (absent map entry); `methodThrow` models an error raised by an
invoked host method itself. -/
inductive JsError where
  | typeError
  | methodThrow
deriving DecidableEq

/-- `Map.get`: value of the first (unique) entry with the given key. -/
def mapGet {α β : Type} [DecidableEq α] (m : List (α × β)) (k : α) : Option β :=
  match m with
  | [] => none
  | (a, b) :: rest => if a = k then some b else mapGet rest k

/-- `Map.set`: update the existing entry in place, otherwise append. -/
def mapSet {α β : Type} [DecidableEq α] (m : List (α × β)) (k : α) (v : β) :
    List (α × β) :=
  match m with
  | [] => [(k, v)]
  | (a, b) :: rest => if a = k then (a, v) :: rest else (a, b) :: mapSet rest k v

/-- `Map.delete`: drop the (unique) entry with the given key, if present. -/
def mapDelete {α β : Type} [DecidableEq α] (m : List (α × β)) (k : α) :
    List (α × β) :=
  match m with
  | [] => []
  | (a, b) :: rest => if a = k then rest else (a, b) :: mapDelete rest k

/-- A host-side object as the server sees it: the own property descriptors
of its immediate prototype (`name` paired with `typeof proto[name] ===
'function'`, in property insertion order), and the behaviour of
`object[method](...args)` (which may throw). -/
structure HostObject where
  protoProps : List (String × Bool)
  behavior : String → List Val → Except JsError Val

/-- Identity of a live host-side instance: the singleton registered under a
service name, or a fresh instance built by `new c()` during a `create`
(identified by the ObjectId minted for it). -/
inductive Inst where
  | service (name : String)
  | fresh (objectId : String)
deriving DecidableEq

/-- Inbound messages handled by `Server.onMessage_`, following the branch
structure of the source: `create` / `lookup` / `dispose` flags, and the
default invoke shape. -/
inductive InMessage where
  | create (name : String) (id : Nat)
  | lookup (name : String) (id : Nat)
  | dispose (objectId : String)
  | invoke (objectId : String) (method : String) (args : List Val) (id : Nat)
deriving DecidableEq

/-- Outbound messages produced by `Server.sendMessage_`. -/
inductive OutMessage where
  | reply (id : Nat) (methods : List String) (objectId : String)
  | invokeReply (id : Nat) (objectId : String) (result : Val)
  | event (objectId : String) (method : String) (args : List Val)
deriving DecidableEq

/-- State of one `Server`: the id counter `lastObjectId_`, the two
catalogs `factories_` / `services_`, the registry `objects_` (a registry
value of `none` models a `Map` entry holding `undefined`), and, for each
live instance, the ObjectId captured by the `emit` closure the server last
assigned to it (rpc.js line 70). -/
structure ServerState where
  lastObjectId : Nat
  factories : List (String × HostObject)
  services : List (String × HostObject)
  objects : List (String × Option (Inst × HostObject))
  emitOf : List (Inst × String)

/-- `new Server()` with the given catalogs already populated via
`exposeFactory` / `exposeObject`. -/
def Server.new (factories services : List (String × HostObject)) : ServerState :=
  { lastObjectId := 0, factories := factories, services := services,
    objects := [], emitOf := [] }

/-- The ObjectId template literal
``` `kind#name#seq#` ``` of rpc.js lines 64 and 67 (the counter prints in
decimal, as a JS integer does). -/
def mkObjectId (kind name : String) (seq : Nat) : String :=
  kind ++ "#" ++ name ++ "#" ++ Nat.repr seq ++ "#"

/-- `Server.describe_` (rpc.js lines 95-105): walk the own property
descriptors of the immediate prototype in order, skip `constructor`, keep
the names whose value is callable. -/
def describeLoop : List (String × Bool) → List String
  | [] => []
  | (name, callable) :: rest =>
    if name = "constructor" then describeLoop rest
    else if callable then name :: describeLoop rest
    else describeLoop rest

/-- `Server.describe_` applied to an object. -/
def describe (o : HostObject) : List String :=
  describeLoop o.protoProps

/-- `Server.onMessage_` (rpc.js lines 57-86).  Returns the new state and
the messages sent, or the error thrown together with the state as mutated
before the throw. -/
def onMessage (s : ServerState) (m : InMessage) :
    Except (JsError × ServerState) (ServerState × List OutMessage) :=
  match m with
  | .create name i =>
    match mapGet s.factories name with
    | none => .error (.typeError, s)
    | some c =>
      let objectId := mkObjectId "create" name (s.lastObjectId + 1)
      let inst := Inst.fresh objectId
      .ok ({ s with lastObjectId := s.lastObjectId + 1,
                    objects := mapSet s.objects objectId (some (inst, c)),
                    emitOf := mapSet s.emitOf inst objectId },
           [.reply i (describe c) objectId])
  | .lookup name i =>
    let objectId := mkObjectId "lookup" name (s.lastObjectId + 1)
    match mapGet s.services name with
    | none =>
      .error (.typeError, { s with lastObjectId := s.lastObjectId + 1,
                                   objects := mapSet s.objects objectId none })
    | some o =>
      let inst := Inst.service name
      .ok ({ s with lastObjectId := s.lastObjectId + 1,
                    objects := mapSet s.objects objectId (some (inst, o)),
                    emitOf := mapSet s.emitOf inst objectId },
           [.reply i (describe o) objectId])
  | .dispose oid => .ok ({ s with objects := mapDelete s.objects oid }, [])
  | .invoke oid method args i =>
    match mapGet s.objects oid with
    | none => .error (.typeError, s)
    | some none => .error (.typeError, s)
    | some (some (_, o)) =>
      match o.behavior method args with
      | .error e => .error (e, s)
      | .ok v => .ok (s, [.invokeReply i oid v])

/-- The `emit` closure assigned at rpc.js line 70: an emission from a live
instance is forwarded as an event message carrying the ObjectId the
closure captured.  Before any registration no forwarding closure exists
and no message is produced. -/
def instanceEmit (s : ServerState) (inst : Inst) (method : String)
    (args : List Val) : Option OutMessage :=
  match mapGet s.emitOf inst with
  | some oid => some (.event oid method args)
  | none => none

/-- One handler invocation of `onMessage_`, as the dispatch loop sees it:
each inbound message runs in its own async call, so a throw loses that
call's replies but leaves the loop running. -/
def stepOut (s : ServerState) (m : InMessage) : ServerState × List OutMessage :=
  match onMessage s m with
  | .ok r => r
  | .error (_, s1) => (s1, [])

/-- The dispatch loop over a whole inbound message sequence, pairing each
message with the messages sent while handling it. -/
def runServerTrace (s : ServerState) :
    List InMessage → ServerState × List (InMessage × List OutMessage)
  | [] => (s, [])
  | m :: ms =>
    let p := stepOut s m
    let q := runServerTrace p.1 ms
    (q.1, (m, p.2) :: q.2)

/-- The remote-side `EventEmitter` of `installClient` (rpc.js lines
109-138): a per-event list of listeners.  Handlers are compared by
reference identity in the source (`a !== handler`); they are modelled by
identity tokens. -/
structure EventEmitter where
  listeners : List (String × List Nat)
deriving DecidableEq

/-- `EventEmitter.on` (rpc.js lines 115-122): fetch (or create and
insert) the per-event array, then push the handler. -/
def EventEmitter.on (e : EventEmitter) (event : String) (handler : Nat) :
    EventEmitter :=
  match mapGet e.listeners event with
  | none => ⟨mapSet e.listeners event [handler]⟩
  | some ls => ⟨mapSet e.listeners event (ls ++ [handler])⟩

/-- `EventEmitter.off` (rpc.js lines 124-129).  Line 128 rebinds the
local variable `listeners` to the filtered copy; the array held by the
map is untouched, so the emitter state does not change. -/
def EventEmitter.off (e : EventEmitter) (event : String) (handler : Nat) :
    EventEmitter :=
  match mapGet e.listeners event with
  | none => e
  | some ls =>
    let _filtered := ls.filter (fun a => a ≠ handler)
    e

/-- `EventEmitter.emit_` (rpc.js lines 131-137): the invocations made,
as (handler, arguments) pairs in listener order. -/
def EventEmitter.emit_ (e : EventEmitter) (event : String) (args : List Val) :
    List (Nat × List Val) :=
  match mapGet e.listeners event with
  | none => []
  | some ls => ls.map (fun h => (h, args))

/-- State of the remote-side `Client`: the request-id counter `lastId_`,
the ids present in `callbacks_` (each maps to the `fulfil` closure of the
promise created for that request), and the proxy registry `objects_`.
`resolved` is the observable outcome of those promises: the first value
each pending promise was fulfilled with (a JS promise settles once). -/
structure ClientState where
  lastId : Nat
  callbacks : List Nat
  resolved : List (Nat × Val)
  objects : List (String × EventEmitter)
deriving DecidableEq

/-- `new Client()` (rpc.js lines 141-145). -/
def Client.new : ClientState :=
  { lastId := 0, callbacks := [], resolved := [], objects := [] }

/-- Calling the `fulfil` closure of the promise for `id`: the promise
takes the value only if it is still pending. -/
def resolvePromise (resolved : List (Nat × Val)) (id : Nat) (v : Val) :
    List (Nat × Val) :=
  match mapGet resolved id with
  | some _ => resolved
  | none => mapSet resolved id v

/-- `Client.sendMessage_` (rpc.js lines 169-175): assign `++lastId_` as
the message id, register the new promise's `fulfil` under that id, send.
Returns the id used alongside the new state. -/
def sendMessage (c : ClientState) : ClientState × Nat :=
  ({ c with lastId := c.lastId + 1, callbacks := c.callbacks ++ [c.lastId + 1] },
   c.lastId + 1)

/-- Messages delivered to `rpc.dispatchMessage`: a correlated response
(`typeof message.id === 'number'`) or an uncorrelated event. -/
inductive ClientMessage where
  | response (id : Nat) (result : Val)
  | event (objectId : String) (method : String) (args : List Val)
deriving DecidableEq

/-- `Client.onMessage_` (rpc.js lines 177-183).  A response resolves the
promise registered under its id — the callback entry is not removed.  An
event is fanned out by the proxy for its objectId.  Touching a missing
map entry throws.  Returns the listener invocations performed. -/
def clientOnMessage (c : ClientState) (m : ClientMessage) :
    Except JsError (ClientState × List (Nat × List Val)) :=
  match m with
  | .response id result =>
    if c.callbacks.contains id then
      .ok ({ c with resolved := resolvePromise c.resolved id result }, [])
    else .error .typeError
  | .event oid method args =>
    match mapGet c.objects oid with
    | none => .error .typeError
    | some em => .ok (c, em.emit_ method args)

/-- `Client.wrap_` (rpc.js lines 157-167): register a fresh proxy
emitter for the ObjectId.  The method stubs and `dispose` are closures on
the proxy and carry no further client state. -/
def wrap (c : ClientState) (objectId : String) (_methods : List String) :
    ClientState :=
  { c with objects := mapSet c.objects objectId ⟨[]⟩ }

/-- The proxy's `dispose` closure (rpc.js lines 162-165): send a dispose
message through `sendMessage_` (which still mints an id and registers a
never-resolved callback), then drop the local proxy entry. -/
def disposeProxy (c : ClientState) (objectId : String) : ClientState × Nat :=
  let p := sendMessage c
  ({ p.1 with objects := mapDelete p.1.objects objectId }, p.2)

/-- Deliver a list of responses to `dispatchMessage`, in order. -/
def deliverResponses (c : ClientState) : List (Nat × Val) → ClientState
  | [] => c
  | (id, v) :: rest =>
    match clientOnMessage c (.response id v) with
    | .ok p => deliverResponses p.1 rest
    | .error _ => deliverResponses c rest

/-- Client-side actions for whole-run statements: issue a request via
`sendMessage_`, or receive a message via `dispatchMessage`. -/
inductive ClientAction where
  | send
  | deliver (m : ClientMessage)

/-- Run a sequence of client actions, recording the request ids minted by
the sends.  A `dispatchMessage` call that throws leaves the state as it
was. -/
def clientRun (c : ClientState) :
    List ClientAction → ClientState × List Nat
  | [] => (c, [])
  | .send :: rest =>
    let p := sendMessage c
    let q := clientRun p.1 rest
    (q.1, p.2 :: q.2)
  | .deliver m :: rest =>
    match clientOnMessage c m with
    | .ok p => clientRun p.1 rest
    | .error _ => clientRun c rest

/-- Numeric value of a decimal digit character. -/
def digitVal (c : Char) : Nat := c.toNat - '0'.toNat

/-- Value of a most-significant-digit-first decimal digit string. -/
def parseDigits (cs : List Char) : Nat :=
  cs.foldl (fun acc c => 10 * acc + digitVal c) 0

/-- The sequence number embedded in an ObjectId string: the value of the
trailing run of decimal digits that stands before the final `#`. -/
def seqOf (oid : String) : Nat :=
  parseDigits ((oid.data.dropLast.reverse.takeWhile Char.isDigit).reverse)

theorem toDigitsCore_append (b : Nat) :
    ∀ (f n : Nat) (ds : List Char),
      Nat.toDigitsCore b f n ds = Nat.toDigitsCore b f n [] ++ ds := by
  intro f
  induction f with
  | zero => intro n ds; simp [Nat.toDigitsCore]
  | succ f ih =>
    intro n ds
    simp only [Nat.toDigitsCore]
    by_cases h : n / b = 0
    · simp [h]
    · simp only [h, if_false]
      rw [ih (n / b) (Nat.digitChar (n % b) :: ds), ih (n / b) [Nat.digitChar (n % b)]]
      simp

theorem toDigitsCore_fuel (b : Nat) (hb : 2 ≤ b) :
    ∀ (n f g : Nat), n < f → n < g →
      Nat.toDigitsCore b f n [] = Nat.toDigitsCore b g n [] := by
  intro n
  induction n using Nat.strong_induction_on with
  | _ n ih =>
    intro f g hf hg
    match f, g with
    | f + 1, g + 1 =>
      simp only [Nat.toDigitsCore]
      by_cases h : n / b = 0
      · simp [h]
      · simp only [h, if_false]
        rw [toDigitsCore_append b f, toDigitsCore_append b g]
        have hn : 0 < n := by
          rcases Nat.eq_zero_or_pos n with h0 | h0
          · subst h0; simp [Nat.zero_div] at h
          · exact h0
        have hdiv : n / b < n := Nat.div_lt_self hn (by omega)
        rw [ih (n / b) hdiv f g (by omega) (by omega)]

theorem toDigits_lt_ten (n : Nat) (h : n < 10) :
    Nat.toDigits 10 n = [Nat.digitChar n] := by
  simp only [Nat.toDigits, Nat.toDigitsCore, Nat.div_eq_of_lt h,
    Nat.mod_eq_of_lt h, if_true]

theorem toDigits_ge_ten (n : Nat) (h : 10 ≤ n) :
    Nat.toDigits 10 n = Nat.toDigits 10 (n / 10) ++ [Nat.digitChar (n % 10)] := by
  have hdiv : n / 10 ≠ 0 := by
    intro h0
    have := Nat.div_eq_of_lt (show n < 10 by omega)
    omega
  have hlt : n / 10 < n := Nat.div_lt_self (by omega) (by omega)
  simp only [Nat.toDigits, Nat.toDigitsCore, hdiv, if_false]
  rw [toDigitsCore_append 10 n]
  rw [toDigitsCore_fuel 10 (by omega) (n / 10) n (n / 10 + 1) (by omega) (by omega)]
  simp only [Nat.toDigitsCore]

theorem digitChar_isDigit : ∀ m, m < 10 → (Nat.digitChar m).isDigit = true := by
  decide

theorem digitVal_digitChar : ∀ m, m < 10 → digitVal (Nat.digitChar m) = m := by
  decide

theorem toDigits_all_isDigit (n : Nat) :
    ∀ c ∈ Nat.toDigits 10 n, c.isDigit = true := by
  induction n using Nat.strong_induction_on with
  | _ n ih =>
    by_cases h : n < 10
    · rw [toDigits_lt_ten n h]
      intro c hc
      simp only [List.mem_singleton] at hc
      subst hc
      exact digitChar_isDigit n h
    · rw [toDigits_ge_ten n (by omega)]
      intro c hc
      rcases List.mem_append.mp hc with h1 | h1
      · exact ih (n / 10) (Nat.div_lt_self (by omega) (by omega)) c h1
      · simp only [List.mem_singleton] at h1
        subst h1
        exact digitChar_isDigit _ (Nat.mod_lt n (by omega))

theorem parseDigits_concat (l : List Char) (c : Char) :
    parseDigits (l ++ [c]) = 10 * parseDigits l + digitVal c := by
  simp [parseDigits, List.foldl_append]

theorem parseDigits_toDigits (n : Nat) :
    parseDigits (Nat.toDigits 10 n) = n := by
  induction n using Nat.strong_induction_on with
  | _ n ih =>
    by_cases h : n < 10
    · rw [toDigits_lt_ten n h]
      have : parseDigits [Nat.digitChar n] = digitVal (Nat.digitChar n) := by
        simp [parseDigits]
      rw [this, digitVal_digitChar n h]
    · rw [toDigits_ge_ten n (by omega), parseDigits_concat,
        ih (n / 10) (Nat.div_lt_self (by omega) (by omega)),
        digitVal_digitChar _ (Nat.mod_lt n (by omega))]
      omega

theorem repr_data (n : Nat) : (Nat.repr n).data = Nat.toDigits 10 n := rfl

theorem takeWhile_append_of_all {p : Char → Bool} :
    ∀ (l₁ : List Char) (x : Char) (l₂ : List Char),
      (∀ c ∈ l₁, p c = true) → p x = false →
      (l₁ ++ x :: l₂).takeWhile p = l₁ := by
  intro l₁
  induction l₁ with
  | nil =>
    intro x l₂ _ hx
    simp [List.takeWhile_cons, hx]
  | cons a t ih =>
    intro x l₂ hall hx
    have ha : p a = true := hall a (by simp)
    simp only [List.cons_append, List.takeWhile_cons, ha, if_true]
    rw [ih x l₂ (fun c hc => hall c (by simp [hc])) hx]

theorem seqOf_mkObjectId (kind name : String) (q : Nat) :
    seqOf (mkObjectId kind name q) = q := by
  unfold seqOf mkObjectId
  simp only [String.data_append, repr_data]
  rw [show kind.data ++ "#".data ++ name.data ++ "#".data ++ Nat.toDigits 10 q
        ++ "#".data
      = (kind.data ++ "#".data ++ name.data ++ "#".data ++ Nat.toDigits 10 q)
        ++ ['#'] by simp]
  rw [List.dropLast_concat]
  rw [show kind.data ++ "#".data ++ name.data ++ "#".data ++ Nat.toDigits 10 q
      = (kind.data ++ "#".data ++ name.data ++ ['#']) ++ Nat.toDigits 10 q by
        simp]
  rw [List.reverse_append]
  rw [show (kind.data ++ "#".data ++ name.data ++ ['#']).reverse
      = '#' :: (kind.data ++ "#".data ++ name.data).reverse by simp]
  rw [takeWhile_append_of_all (Nat.toDigits 10 q).reverse '#'
        (kind.data ++ "#".data ++ name.data).reverse
        (fun c hc => toDigits_all_isDigit q c (List.mem_reverse.mp hc))
        (by decide)]
  rw [List.reverse_reverse]
  exact parseDigits_toDigits q

theorem mapGet_mapSet_self {α β : Type} [DecidableEq α]
    (m : List (α × β)) (k : α) (v : β) :
    mapGet (mapSet m k v) k = some v := by
  induction m with
  | nil => simp [mapGet, mapSet]
  | cons p rest ih =>
    obtain ⟨a, b⟩ := p
    by_cases h : a = k <;> simp [mapGet, mapSet, h, ih]

theorem mapGet_mapSet_ne {α β : Type} [DecidableEq α]
    (m : List (α × β)) (k k1 : α) (v : β) (h : k ≠ k1) :
    mapGet (mapSet m k v) k1 = mapGet m k1 := by
  induction m with
  | nil => simp [mapGet, mapSet, h]
  | cons p rest ih =>
    obtain ⟨a, b⟩ := p
    by_cases ha : a = k
    · subst ha; simp [mapGet, mapSet, h]
    · simp [mapGet, mapSet, ha, ih]

theorem mapGet_eq_none_iff {α β : Type} [DecidableEq α]
    (m : List (α × β)) (k : α) :
    mapGet m k = none ↔ k ∉ m.map Prod.fst := by
  induction m with
  | nil => simp [mapGet]
  | cons p rest ih =>
    obtain ⟨a, b⟩ := p
    by_cases h : a = k
    · subst h; simp [mapGet]
    · have hka : ¬k = a := fun hk => h hk.symm
      simp [mapGet, h, hka, ih]

theorem mapDelete_of_none {α β : Type} [DecidableEq α]
    (m : List (α × β)) (k : α) (h : mapGet m k = none) :
    mapDelete m k = m := by
  induction m with
  | nil => simp [mapDelete]
  | cons p rest ih =>
    obtain ⟨a, b⟩ := p
    by_cases ha : a = k
    · subst ha; simp [mapGet] at h
    · simp [mapGet, ha] at h
      simp [mapDelete, ha, ih h]

theorem mapGet_mapDelete_self {α β : Type} [DecidableEq α]
    (m : List (α × β)) (k : α) (h : (m.map Prod.fst).Nodup) :
    mapGet (mapDelete m k) k = none := by
  induction m with
  | nil => simp [mapGet, mapDelete]
  | cons p rest ih =>
    obtain ⟨a, b⟩ := p
    simp only [List.map_cons, List.nodup_cons] at h
    by_cases ha : a = k
    · subst ha
      simp only [mapDelete, if_true]
      rw [mapGet_eq_none_iff]
      exact h.1
    · simp [mapDelete, mapGet, ha, ih h.2]

/-- The ObjectId carried by a create/lookup reply, if the message is one. -/
def replyOid : OutMessage → Option String
  | .reply _ _ oid => some oid
  | .invokeReply _ _ _ => none
  | .event _ _ _ => none

/-- All ObjectIds handed out in create/lookup replies over a trace. -/
def mintedIds : List (InMessage × List OutMessage) → List String
  | [] => []
  | p :: tr => p.2.filterMap replyOid ++ mintedIds tr

/-- A create/lookup reply answers the request it was produced for: same
request id, and an ObjectId of the form `kind#name#seq#` whose kind and
name come from that request.  Messages of other shapes are unconstrained,
and non-create/lookup requests never produce a create/lookup reply. -/
def replyMatchesRequest (m : InMessage) (r : OutMessage) : Prop :=
  match m, r with
  | .create name i, .reply j _ oid =>
      j = i ∧ ∃ q, oid = mkObjectId "create" name q
  | .lookup name i, .reply j _ oid =>
      j = i ∧ ∃ q, oid = mkObjectId "lookup" name q
  | _, .reply _ _ _ => False
  | _, _ => True

theorem runServerTrace_cons (s : ServerState) (m : InMessage)
    (ms : List InMessage) :
    runServerTrace s (m :: ms) =
      ((runServerTrace (stepOut s m).1 ms).1,
       (m, (stepOut s m).2) :: (runServerTrace (stepOut s m).1 ms).2) := rfl

theorem runServerTrace_minted : ∀ (ms : List InMessage) (s : ServerState),
    s.lastObjectId ≤ (runServerTrace s ms).1.lastObjectId ∧
    (∀ oid ∈ mintedIds (runServerTrace s ms).2,
        s.lastObjectId < seqOf oid ∧
        seqOf oid ≤ (runServerTrace s ms).1.lastObjectId) ∧
    List.Chain' (· < ·) ((mintedIds (runServerTrace s ms).2).map seqOf) ∧
    (∀ p ∈ (runServerTrace s ms).2, ∀ r ∈ p.2, replyMatchesRequest p.1 r) := by
  intro ms
  induction ms with
  | nil => intro s; simp [runServerTrace, mintedIds]
  | cons m ms ih =>
    intro s
    rw [runServerTrace_cons]
    rcases hstep : stepOut s m with ⟨s1, out⟩
    dsimp only
    obtain ⟨ih1, ih2, ih3, ih4⟩ := ih s1
    -- classify the step: counter evolution and what was minted
    have hcases :
        (s1.lastObjectId = s.lastObjectId ∧ out.filterMap replyOid = [] ∧
          ∀ r ∈ out, replyMatchesRequest m r) ∨
        (s1.lastObjectId = s.lastObjectId + 1 ∧ out.filterMap replyOid = [] ∧
          ∀ r ∈ out, replyMatchesRequest m r) ∨
        (s1.lastObjectId = s.lastObjectId + 1 ∧
          (∃ oid, out.filterMap replyOid = [oid] ∧
            seqOf oid = s.lastObjectId + 1) ∧
          ∀ r ∈ out, replyMatchesRequest m r) := by
      rcases m with ⟨name, i⟩ | ⟨name, i⟩ | oid | ⟨oid, method, args, i⟩
      · rcases hf : mapGet s.factories name with _ | c
        · refine Or.inl ?_
          simp only [stepOut, onMessage, hf] at hstep
          obtain ⟨h1, h2⟩ := Prod.mk.injEq .. ▸ hstep
          simp [← h1, ← h2, List.filterMap]
        · refine Or.inr (Or.inr ?_)
          simp only [stepOut, onMessage, hf] at hstep
          obtain ⟨h1, h2⟩ := Prod.mk.injEq .. ▸ hstep
          refine ⟨by simp [← h1], ⟨mkObjectId "create" name (s.lastObjectId + 1),
            by simp [← h2, List.filterMap, replyOid, seqOf_mkObjectId], ?_⟩, ?_⟩
          · exact seqOf_mkObjectId ..
          · intro r hr
            simp only [← h2, List.mem_singleton] at hr
            subst hr
            exact ⟨rfl, s.lastObjectId + 1, rfl⟩
      · rcases hf : mapGet s.services name with _ | o
        · refine Or.inr (Or.inl ?_)
          simp only [stepOut, onMessage, hf] at hstep
          obtain ⟨h1, h2⟩ := Prod.mk.injEq .. ▸ hstep
          simp [← h1, ← h2, List.filterMap]
        · refine Or.inr (Or.inr ?_)
          simp only [stepOut, onMessage, hf] at hstep
          obtain ⟨h1, h2⟩ := Prod.mk.injEq .. ▸ hstep
          refine ⟨by simp [← h1], ⟨mkObjectId "lookup" name (s.lastObjectId + 1),
            by simp [← h2, List.filterMap, replyOid, seqOf_mkObjectId], ?_⟩, ?_⟩
          · exact seqOf_mkObjectId ..
          · intro r hr
            simp only [← h2, List.mem_singleton] at hr
            subst hr
            exact ⟨rfl, s.lastObjectId + 1, rfl⟩
      · refine Or.inl ?_
        simp only [stepOut, onMessage] at hstep
        obtain ⟨h1, h2⟩ := Prod.mk.injEq .. ▸ hstep
        simp [← h1, ← h2, List.filterMap]
      · refine Or.inl ?_
        rcases hg : mapGet s.objects oid with _ | v
        · simp only [stepOut, onMessage, hg] at hstep
          obtain ⟨h1, h2⟩ := Prod.mk.injEq .. ▸ hstep
          simp [← h1, ← h2, List.filterMap]
        · rcases v with _ | ⟨inst, o⟩
          · simp only [stepOut, onMessage, hg] at hstep
            obtain ⟨h1, h2⟩ := Prod.mk.injEq .. ▸ hstep
            simp [← h1, ← h2, List.filterMap]
          · rcases hb : o.behavior method args with e | v
            · simp only [stepOut, onMessage, hg, hb] at hstep
              obtain ⟨h1, h2⟩ := Prod.mk.injEq .. ▸ hstep
              simp [← h1, ← h2, List.filterMap]
            · simp only [stepOut, onMessage, hg, hb] at hstep
              obtain ⟨h1, h2⟩ := Prod.mk.injEq .. ▸ hstep
              refine ⟨by simp [← h1], by simp [← h2, List.filterMap, replyOid], ?_⟩
              intro r hr
              simp only [← h2, List.mem_singleton] at hr
              subst hr
              simp [replyMatchesRequest]
    -- assemble the conjunction from the step classification
    rcases hcases with ⟨hlast, hmint, hmatch⟩ | ⟨hlast, hmint, hmatch⟩ |
      ⟨hlast, ⟨oid0, hmint, hseq⟩, hmatch⟩
    · refine ⟨by omega, ?_, ?_, ?_⟩
      · intro x hx
        simp only [mintedIds, hmint, List.nil_append] at hx
        have := ih2 x hx
        omega
      · simpa [mintedIds, hmint] using ih3
      · intro p hp r hr
        rcases List.mem_cons.mp hp with hp | hp
        · subst hp; exact hmatch r hr
        · exact ih4 p hp r hr
    · refine ⟨by omega, ?_, ?_, ?_⟩
      · intro x hx
        simp only [mintedIds, hmint, List.nil_append] at hx
        have := ih2 x hx
        omega
      · simpa [mintedIds, hmint] using ih3
      · intro p hp r hr
        rcases List.mem_cons.mp hp with hp | hp
        · subst hp; exact hmatch r hr
        · exact ih4 p hp r hr
    · refine ⟨by omega, ?_, ?_, ?_⟩
      · intro x hx
        simp only [mintedIds, hmint, List.cons_append, List.nil_append,
          List.mem_cons] at hx
        rcases hx with hx | hx
        · subst hx; omega
        · have := ih2 x hx
          omega
      · simp only [mintedIds, hmint, List.cons_append, List.nil_append,
          List.map_cons]
        refine List.chain'_cons'.mpr ⟨?_, ih3⟩
        intro y hy
        rcases hhd : (mintedIds (runServerTrace s1 ms).2) with _ | ⟨z, tl⟩
        · simp [hhd] at hy
        · simp only [hhd, List.map_cons, List.head?_cons, Option.mem_def,
            Option.some.injEq] at hy
          subst hy
          have hz := ih2 z (by simp [hhd])
          omega
      · intro p hp r hr
        rcases List.mem_cons.mp hp with hp | hp
        · subst hp; exact hmatch r hr
        · exact ih4 p hp r hr

/-- C1: For every sequence of create and lookup requests handled by one
Server (interleaved with any other requests, disposals included), every
minted ObjectId is distinct, has the form `kind#name#seq#` with kind
`create` for create requests and `lookup` for lookup requests, and the
embedded sequence numbers are strictly increasing across the Server's
lifetime, drawn from the one shared counter and never reused. -/
theorem c1_objectIds_unique_increasing
    (factories services : List (String × HostObject)) (ms : List InMessage) :
    (mintedIds (runServerTrace (Server.new factories services) ms).2).Nodup ∧
    List.Chain' (· < ·)
      ((mintedIds (runServerTrace (Server.new factories services) ms).2).map
        seqOf) ∧
    (∀ p ∈ (runServerTrace (Server.new factories services) ms).2,
      ∀ r ∈ p.2, replyMatchesRequest p.1 r) := by
  obtain ⟨h1, h2, h3, h4⟩ :=
    runServerTrace_minted ms (Server.new factories services)
  refine ⟨?_, h3, h4⟩
  have hpw := List.chain'_iff_pairwise.mp h3
  have hnd :
      ((mintedIds (runServerTrace (Server.new factories services) ms).2).map
        seqOf).Nodup :=
    hpw.imp (fun h => Nat.ne_of_lt h)
  exact List.Nodup.of_map seqOf hnd

/-- The method descriptor set as the spec words it: the property names of
the immediate prototype whose values are callable, excluding
`constructor`, in the prototype's property insertion order.  (Reference
definition, written from the spec, to be compared with `describe`.) -/
def specDescriptorSet (protoProps : List (String × Bool)) : List String :=
  (protoProps.filter (fun p => p.2 && p.1 != "constructor")).map Prod.fst

theorem describeLoop_eq_spec (l : List (String × Bool)) :
    describeLoop l = specDescriptorSet l := by
  induction l with
  | nil => simp [describeLoop, specDescriptorSet]
  | cons p rest ih =>
    obtain ⟨name, callable⟩ := p
    by_cases h : name = "constructor"
    · subst h
      simp [describeLoop, specDescriptorSet, ih]
    · cases callable <;>
        simp [describeLoop, specDescriptorSet, h, ih, bne_iff_ne]

/-- The messages a handler invocation managed to send. -/
def sentMessages :
    Except (JsError × ServerState) (ServerState × List OutMessage) →
      List OutMessage
  | .ok p => p.2
  | .error _ => []

/-- C2: For every registered object, the method descriptor set the Server
computes and returns in the create/lookup reply equals exactly the
property names of the object's immediate prototype whose values are
callable, excluding `constructor`, in the prototype's property insertion
order. -/
theorem c2_descriptor_set_fidelity (s : ServerState) (nf ns : String)
    (i j : Nat) (cf os : HostObject)
    (hf : mapGet s.factories nf = some cf)
    (hs : mapGet s.services ns = some os) :
    (∃ oid, sentMessages (onMessage s (.create nf i)) =
      [.reply i (specDescriptorSet cf.protoProps) oid]) ∧
    (∃ oid, sentMessages (onMessage s (.lookup ns j)) =
      [.reply j (specDescriptorSet os.protoProps) oid]) := by
  constructor
  · refine ⟨mkObjectId "create" nf (s.lastObjectId + 1), ?_⟩
    simp [onMessage, hf, sentMessages, describe, describeLoop_eq_spec]
  · refine ⟨mkObjectId "lookup" ns (s.lastObjectId + 1), ?_⟩
    simp [onMessage, hs, sentMessages, describe, describeLoop_eq_spec]

/-- A concrete host class for witnesses: prototype property descriptors
`constructor`, `increment`, `name` (a non-callable data property);
`increment` returns 1, anything else throws. -/
def counterClass : HostObject :=
  { protoProps := [("constructor", true), ("increment", true), ("name", false)],
    behavior := fun method _ =>
      if method = "increment" then .ok (.num 1) else .error .typeError }

/-- A concrete server for witnesses: one factory and one service. -/
def witnessServer : ServerState :=
  Server.new [("Counter", counterClass)] [("Settings", counterClass)]

/-- Witness for C2 at a concrete server. -/
theorem c2_descriptor_set_fidelity_witness :
    (∃ oid, sentMessages (onMessage witnessServer (.create "Counter" 1)) =
      [.reply 1 (specDescriptorSet counterClass.protoProps) oid]) ∧
    (∃ oid, sentMessages (onMessage witnessServer (.lookup "Settings" 2)) =
      [.reply 2 (specDescriptorSet counterClass.protoProps) oid]) :=
  c2_descriptor_set_fidelity witnessServer "Counter" "Settings" 1 2
    counterClass counterClass rfl rfl

theorem deliverResponses_callbacks (rs : List (Nat × Val)) :
    ∀ c : ClientState, (deliverResponses c rs).callbacks = c.callbacks := by
  induction rs with
  | nil => intro c; rfl
  | cons p rest ih =>
    intro c
    obtain ⟨i, v⟩ := p
    by_cases hc : c.callbacks.contains i
    · simp only [deliverResponses, clientOnMessage, hc, if_true]
      rw [ih]
    · simp only [deliverResponses, clientOnMessage, hc, if_false]
      exact ih c

theorem deliverResponses_other (rs : List (Nat × Val)) :
    ∀ (c : ClientState) (i : Nat), (∀ q ∈ rs, q.1 ≠ i) →
      mapGet (deliverResponses c rs).resolved i = mapGet c.resolved i := by
  induction rs with
  | nil => intro c i _; rfl
  | cons p rest ih =>
    intro c i hne
    obtain ⟨j, w⟩ := p
    have hji : j ≠ i := hne (j, w) (by simp)
    by_cases hc : c.callbacks.contains j
    · simp only [deliverResponses, clientOnMessage, hc, if_true]
      rw [ih _ i (fun q hq => hne q (by simp [hq]))]
      simp only [resolvePromise]
      rcases hr : mapGet c.resolved j with _ | u
      · exact mapGet_mapSet_ne c.resolved j i w hji
      · rfl
    · simp only [deliverResponses, clientOnMessage, hc, if_false]
      exact ih c i (fun q hq => hne q (by simp [hq]))

theorem deliverResponses_resolves (rs : List (Nat × Val)) :
    ∀ c : ClientState, (rs.map Prod.fst).Nodup →
      (∀ p ∈ rs, c.callbacks.contains p.1 = true ∧
        mapGet c.resolved p.1 = none) →
      ∀ p ∈ rs, mapGet (deliverResponses c rs).resolved p.1 = some p.2 := by
  induction rs with
  | nil => intro c _ _ p hp; cases hp
  | cons q rest ih =>
    intro c hnd hpend p hp
    obtain ⟨i, v⟩ := q
    obtain ⟨hci, hri⟩ := hpend (i, v) (by simp)
    simp only [List.map_cons, List.nodup_cons] at hnd
    have hstep : deliverResponses c ((i, v) :: rest) =
        deliverResponses
          { c with resolved := mapSet c.resolved i v } rest := by
      simp only [deliverResponses, clientOnMessage, hci, if_true,
        resolvePromise, hri]
    rcases List.mem_cons.mp hp with hp1 | hp1
    · obtain ⟨rfl, rfl⟩ := Prod.mk.injEq .. ▸ hp1
      rw [hstep]
      rw [deliverResponses_other rest _ p.1 ?hne]
      · exact mapGet_mapSet_self c.resolved p.1 p.2
      case hne =>
        intro q hq
        intro hqi
        exact hnd.1 (hqi ▸ List.mem_map_of_mem Prod.fst hq)
    · rw [hstep]
      refine ih _ hnd.2 ?_ p hp1
      intro r hr
      obtain ⟨hcr, hrr⟩ := hpend r (by simp [hr])
      refine ⟨hcr, ?_⟩
      have hri2 : r.1 ≠ i := by
        intro h
        exact hnd.1 (h ▸ List.mem_map_of_mem Prod.fst hr)
      rw [mapGet_mapSet_ne c.resolved i r.1 v (fun h => hri2 h.symm)]
      exact hrr

/-- C3: For every set of in-flight client requests with distinct request
ids, delivering their responses to the client's `dispatchMessage` in any
permuted order resolves each request's pending promise with exactly the
result carried by the response bearing its own id, never another
request's result. -/
theorem c3_out_of_order_correlation (c : ClientState)
    (rs rsPerm : List (Nat × Val))
    (hperm : rsPerm.Perm rs)
    (hnodup : (rs.map Prod.fst).Nodup)
    (hpend : ∀ p ∈ rs, c.callbacks.contains p.1 = true ∧
      mapGet c.resolved p.1 = none) :
    ∀ p ∈ rs, mapGet (deliverResponses c rsPerm).resolved p.1 = some p.2 := by
  have hnodup2 : (rsPerm.map Prod.fst).Nodup :=
    ((hperm.map Prod.fst).nodup_iff).mpr hnodup
  have hpend2 : ∀ p ∈ rsPerm, c.callbacks.contains p.1 = true ∧
      mapGet c.resolved p.1 = none :=
    fun p hp => hpend p (hperm.mem_iff.mp hp)
  intro p hp
  exact deliverResponses_resolves rsPerm c hnodup2 hpend2 p
    (hperm.mem_iff.mpr hp)

/-- A client with two requests in flight (ids 1 and 2), for witnesses. -/
def clientTwoPending : ClientState :=
  { lastId := 2, callbacks := [1, 2], resolved := [], objects := [] }

/-- Witness for C3: the two responses delivered in swapped order each
resolve their own request. -/
theorem c3_out_of_order_correlation_witness :
    mapGet (deliverResponses clientTwoPending
      [(2, .num 20), (1, .num 10)]).resolved 1 = some (.num 10) ∧
    mapGet (deliverResponses clientTwoPending
      [(2, .num 20), (1, .num 10)]).resolved 2 = some (.num 20) :=
  ⟨c3_out_of_order_correlation clientTwoPending
      [(1, .num 10), (2, .num 20)] [(2, .num 20), (1, .num 10)]
      (by decide) (by decide) (by decide) (1, .num 10) (by decide),
   c3_out_of_order_correlation clientTwoPending
      [(1, .num 10), (2, .num 20)] [(2, .num 20), (1, .num 10)]
      (by decide) (by decide) (by decide) (2, .num 20) (by decide)⟩

theorem clientOnMessage_preserves (c : ClientState) (m : ClientMessage)
    (p : ClientState × List (Nat × List Val))
    (h : clientOnMessage c m = .ok p) :
    p.1.lastId = c.lastId ∧ p.1.callbacks = c.callbacks := by
  cases m with
  | response id v =>
    simp only [clientOnMessage] at h
    split at h
    · injection h with h2
      rw [← h2]
      exact ⟨rfl, rfl⟩
    · cases h
  | event oid method args =>
    simp only [clientOnMessage] at h
    split at h
    · cases h
    · injection h with h2
      rw [← h2]
      exact ⟨rfl, rfl⟩

theorem clientRun_ids (acts : List ClientAction) :
    ∀ c : ClientState,
      c.lastId ≤ (clientRun c acts).1.lastId ∧
      (∀ i ∈ (clientRun c acts).2,
        c.lastId < i ∧ i ≤ (clientRun c acts).1.lastId) ∧
      List.Chain' (· < ·) (clientRun c acts).2 := by
  induction acts with
  | nil => intro c; simp [clientRun]
  | cons a rest ih =>
    intro c
    cases a with
    | send =>
      obtain ⟨ih1, ih2, ih3⟩ := ih (sendMessage c).1
      have hlast : (sendMessage c).1.lastId = c.lastId + 1 := rfl
      rw [hlast] at ih1
      have hrun : clientRun c (.send :: rest) =
          ((clientRun (sendMessage c).1 rest).1,
           (c.lastId + 1) :: (clientRun (sendMessage c).1 rest).2) := rfl
      rw [hrun]
      dsimp only
      refine ⟨by omega, ?_, ?_⟩
      · intro i hi
        rcases List.mem_cons.mp hi with hi | hi
        · subst hi; exact ⟨by omega, ih1⟩
        · obtain ⟨ha, hb⟩ := ih2 i hi
          rw [hlast] at ha
          exact ⟨by omega, hb⟩
      · refine List.chain'_cons'.mpr ⟨?_, ih3⟩
        intro y hy
        rcases hhd : (clientRun (sendMessage c).1 rest).2 with _ | ⟨z, tl⟩
        · simp [hhd] at hy
        · simp only [hhd, List.head?_cons, Option.mem_def,
            Option.some.injEq] at hy
          subst hy
          obtain ⟨ha, _⟩ := ih2 z (by simp [hhd])
          rw [hlast] at ha
          exact ha
    | deliver m =>
      cases hm : clientOnMessage c m with
      | ok p =>
        have hrun : clientRun c (.deliver m :: rest) = clientRun p.1 rest := by
          simp only [clientRun, hm]
        obtain ⟨hl, _⟩ := clientOnMessage_preserves c m p hm
        obtain ⟨ih1, ih2, ih3⟩ := ih p.1
        rw [hrun]
        refine ⟨by omega, ?_, ih3⟩
        intro i hi
        obtain ⟨ha, hb⟩ := ih2 i hi
        exact ⟨by omega, hb⟩
      | error e =>
        have hrun : clientRun c (.deliver m :: rest) = clientRun c rest := by
          simp only [clientRun, hm]
        rw [hrun]
        exact ih c

/-- C8 (amended): on the client side each request id is minted by exactly
one request and ids are never reused (the ids handed out over any run are
strictly increasing and all exceed the current counter); however, the
pending-call entry is NOT removed when its matching response arrives —
the callbacks map is unchanged by a response (the promise still resolves
only once). -/
theorem c8_ids_never_reused_entry_kept (c : ClientState)
    (acts : List ClientAction) (id : Nat) (v : Val)
    (p : ClientState × List (Nat × List Val))
    (hp : clientOnMessage c (.response id v) = .ok p) :
    List.Chain' (· < ·) (clientRun c acts).2 ∧
    (∀ i ∈ (clientRun c acts).2, c.lastId < i) ∧
    p.1.callbacks = c.callbacks := by
  obtain ⟨_, h2, h3⟩ := clientRun_ids acts c
  exact ⟨h3, fun i hi => (h2 i hi).1,
    (clientOnMessage_preserves c (.response id v) p hp).2⟩

/-- C8 counterexample: a fresh client issues request 1, its response
arrives — and the callbacks_ entry for id 1 is still present (rpc.js
line 179 never deletes it), where the claim requires the entry removed
immediately on arrival of the matching response. -/
theorem c8_counterexample :
    (clientRun Client.new
      [.send, .deliver (.response 1 (.num 7))]).1.callbacks = [1] := rfl

/-- Witness for C8 (amended) at a concrete client. -/
theorem c8_ids_never_reused_entry_kept_witness :
    List.Chain' (· < ·) (clientRun clientTwoPending [.send, .send]).2 ∧
    (∀ i ∈ (clientRun clientTwoPending [.send, .send]).2,
      clientTwoPending.lastId < i) ∧
    ({ clientTwoPending with
        resolved := [(1, Val.num 5)] }, ([] : List (Nat × List Val))).1.callbacks
      = clientTwoPending.callbacks :=
  c8_ids_never_reused_entry_kept clientTwoPending [.send, .send] 1 (.num 5)
    ({ clientTwoPending with resolved := [(1, Val.num 5)] }, []) rfl

/-- C4 at the failing input: after registering handler 0 for event
`changed` and calling `off("changed", 0)`, an emission of `changed`
still invokes the removed handler, and `off` left the emitter state
unchanged — rpc.js line 128 assigns the filtered array to a dead local,
so removal-by-identity never reaches the listeners map.  The claim
requires the handler not to be invoked after `off`. -/
theorem c4_off_leaves_handler_registered :
    (((⟨[]⟩ : EventEmitter).on "changed" 0).off "changed" 0).emit_
        "changed" [] = [(0, [])] ∧
    ((⟨[]⟩ : EventEmitter).on "changed" 0).off "changed" 0 =
      (⟨[]⟩ : EventEmitter).on "changed" 0 :=
  ⟨rfl, rfl⟩

/-- C5 counterexample: an invoke for an ObjectId that is not registered
(the registry is empty here) produces no outbound message at all — in
particular no failed response carrying the failure reaches the original
caller, where the claim requires an UnknownObject failure to be sent
back. -/
theorem c5_counterexample :
    (runServerTrace (Server.new [] [])
      [.invoke "lookup#Counter#1#" "increment" [] 5]).2 =
      [(.invoke "lookup#Counter#1#" "increment" [] 5, [])] := rfl

/-- C5 (amended): for every invoke message whose objectId is not
currently registered (or whose registry slot holds `undefined`), the
handler throws a TypeError (reading the method of `undefined`), sends no
response of any kind — so the failure never reaches the original caller
and their pending promise is never resolved — and the dispatch loop
continues with the remaining messages unaffected. -/
theorem c5_unknown_object_throws_no_reply (s : ServerState)
    (oid method : String) (args : List Val) (i : Nat) (ms : List InMessage)
    (h : mapGet s.objects oid = none ∨ mapGet s.objects oid = some none) :
    onMessage s (.invoke oid method args i) = .error (.typeError, s) ∧
    runServerTrace s (.invoke oid method args i :: ms) =
      ((runServerTrace s ms).1,
       (.invoke oid method args i, []) :: (runServerTrace s ms).2) := by
  have h1 : onMessage s (.invoke oid method args i) =
      .error (.typeError, s) := by
    rcases h with h | h <;> simp [onMessage, h]
  refine ⟨h1, ?_⟩
  rw [runServerTrace_cons]
  simp [stepOut, h1]

/-- Witness for C5 (amended) at a concrete server. -/
theorem c5_unknown_object_throws_no_reply_witness :
    onMessage witnessServer (.invoke "lookup#Settings#9#" "get" [] 4) =
      .error (.typeError, witnessServer) ∧
    runServerTrace witnessServer
        [.invoke "lookup#Settings#9#" "get" [] 4] =
      ((runServerTrace witnessServer []).1,
       (.invoke "lookup#Settings#9#" "get" [] 4, []) ::
         (runServerTrace witnessServer []).2) :=
  c5_unknown_object_throws_no_reply witnessServer "lookup#Settings#9#"
    "get" [] 4 [] (Or.inl rfl)

/-- A host object whose every method call throws. -/
def throwingCounter : HostObject :=
  { protoProps := [("constructor", true), ("increment", true)],
    behavior := fun _ _ => .error .methodThrow }

/-- A server holding one registered object whose methods throw. -/
def serverWithThrowing : ServerState :=
  { lastObjectId := 1, factories := [],
    services := [("Counter", throwingCounter)],
    objects := [("lookup#Counter#1#",
      some (.service "Counter", throwingCounter))],
    emitOf := [(.service "Counter", "lookup#Counter#1#")] }

/-- C6 counterexample: an invoke whose host-side method throws produces
no outbound message at all — the error does not reach the original
caller as a failed response, where the claim requires it to propagate to
the caller. -/
theorem c6_counterexample :
    (runServerTrace serverWithThrowing
      [.invoke "lookup#Counter#1#" "increment" [] 3]).2 =
      [(.invoke "lookup#Counter#1#" "increment" [] 3, [])] := rfl

/-- C6 (amended): when the underlying host-side method call raises, the
handler's promise rejects with that error, no response message is sent —
so the caller's pending promise is never resolved — and the dispatch
loop continues with the remaining messages unaffected. -/
theorem c6_method_error_no_reply (s : ServerState) (oid method : String)
    (args : List Val) (i : Nat) (ms : List InMessage) (inst : Inst)
    (o : HostObject) (e : JsError)
    (hobj : mapGet s.objects oid = some (some (inst, o)))
    (herr : o.behavior method args = .error e) :
    onMessage s (.invoke oid method args i) = .error (e, s) ∧
    runServerTrace s (.invoke oid method args i :: ms) =
      ((runServerTrace s ms).1,
       (.invoke oid method args i, []) :: (runServerTrace s ms).2) := by
  have h1 : onMessage s (.invoke oid method args i) = .error (e, s) := by
    simp [onMessage, hobj, herr]
  refine ⟨h1, ?_⟩
  rw [runServerTrace_cons]
  simp [stepOut, h1]

/-- Witness for C6 (amended) at a concrete server. -/
theorem c6_method_error_no_reply_witness :
    onMessage serverWithThrowing
        (.invoke "lookup#Counter#1#" "increment" [] 3) =
      .error (.methodThrow, serverWithThrowing) ∧
    runServerTrace serverWithThrowing
        [.invoke "lookup#Counter#1#" "increment" [] 3] =
      ((runServerTrace serverWithThrowing []).1,
       (.invoke "lookup#Counter#1#" "increment" [] 3, []) ::
         (runServerTrace serverWithThrowing []).2) :=
  c6_method_error_no_reply serverWithThrowing "lookup#Counter#1#"
    "increment" [] 3 [] (.service "Counter") throwingCounter .methodThrow
    rfl rfl

/-- C7: a dispose message removes the registry entry for its objectId
and sends no reply; disposing the same ObjectId again afterwards
produces no error and leaves the registry unchanged, and disposing an
ObjectId that was never registered produces no error and leaves the
registry exactly as it was. -/
theorem c7_dispose_idempotent_no_reply (s : ServerState) (oid : String)
    (hnd : (s.objects.map Prod.fst).Nodup) :
    onMessage s (.dispose oid) =
      .ok ({ s with objects := mapDelete s.objects oid }, []) ∧
    onMessage { s with objects := mapDelete s.objects oid } (.dispose oid) =
      .ok ({ s with objects := mapDelete s.objects oid }, []) ∧
    (mapGet s.objects oid = none →
      onMessage s (.dispose oid) = .ok (s, [])) := by
  refine ⟨rfl, ?_, ?_⟩
  · have hD : mapDelete (mapDelete s.objects oid) oid =
        mapDelete s.objects oid :=
      mapDelete_of_none _ _ (mapGet_mapDelete_self s.objects oid hnd)
    simp [onMessage, hD]
  · intro h
    have hD : mapDelete s.objects oid = s.objects := mapDelete_of_none _ _ h
    simp [onMessage, hD]

/-- A server with one registry slot holding `undefined`, for witnesses. -/
def serverOneSlot : ServerState :=
  { lastObjectId := 1, factories := [], services := [],
    objects := [("lookup#S#1#", none)], emitOf := [] }

/-- Witness for C7 at a concrete server. -/
theorem c7_dispose_idempotent_no_reply_witness :
    onMessage serverOneSlot (.dispose "lookup#S#1#") =
      .ok ({ serverOneSlot with
        objects := mapDelete serverOneSlot.objects "lookup#S#1#" }, []) ∧
    onMessage { serverOneSlot with
        objects := mapDelete serverOneSlot.objects "lookup#S#1#" }
        (.dispose "lookup#S#1#") =
      .ok ({ serverOneSlot with
        objects := mapDelete serverOneSlot.objects "lookup#S#1#" }, []) ∧
    (mapGet serverOneSlot.objects "lookup#S#1#" = none →
      onMessage serverOneSlot (.dispose "lookup#S#1#") =
        .ok (serverOneSlot, [])) :=
  c7_dispose_idempotent_no_reply serverOneSlot "lookup#S#1#" (by decide)

/-- The server state after a successful lookup of service `n` bound to
object `o`: counter bumped, the minted id registered, and the shared
instance's `emit` closure rebound to the minted id. -/
def afterLookup (s : ServerState) (n : String) (o : HostObject) : ServerState :=
  { s with lastObjectId := s.lastObjectId + 1,
           objects := mapSet s.objects
             (mkObjectId "lookup" n (s.lastObjectId + 1))
             (some (.service n, o)),
           emitOf := mapSet s.emitOf (.service n)
             (mkObjectId "lookup" n (s.lastObjectId + 1)) }

theorem onMessage_lookup_ok (s : ServerState) (n : String) (i : Nat)
    (o : HostObject) (hs : mapGet s.services n = some o) :
    onMessage s (.lookup n i) =
      .ok (afterLookup s n o,
        [.reply i (describe o) (mkObjectId "lookup" n (s.lastObjectId + 1))]) := by
  simp [onMessage, afterLookup, hs]

/-- C9: looking a service up twice rebinds the single shared instance's
emit capability to the ObjectId minted by the second lookup: the two
minted ids differ, every later emission from the instance is forwarded
as an event message carrying only the most recently minted ObjectId, and
an event so addressed fans out only to the proxy registered under that
id — a proxy from the earlier lookup (under the earlier, different id)
receives nothing. -/
theorem c9_second_lookup_steals_events (s : ServerState) (n : String)
    (i1 i2 : Nat) (o : HostObject) (hs : mapGet s.services n = some o) :
    onMessage s (.lookup n i1) =
      .ok (afterLookup s n o,
        [.reply i1 (describe o)
          (mkObjectId "lookup" n (s.lastObjectId + 1))]) ∧
    onMessage (afterLookup s n o) (.lookup n i2) =
      .ok (afterLookup (afterLookup s n o) n o,
        [.reply i2 (describe o)
          (mkObjectId "lookup" n (s.lastObjectId + 2))]) ∧
    mkObjectId "lookup" n (s.lastObjectId + 1) ≠
      mkObjectId "lookup" n (s.lastObjectId + 2) ∧
    (∀ ev args,
      instanceEmit (afterLookup (afterLookup s n o) n o) (.service n) ev args =
        some (.event (mkObjectId "lookup" n (s.lastObjectId + 2)) ev args)) ∧
    (∀ (c : ClientState) (em : EventEmitter) (ev : String) (args : List Val),
      mapGet c.objects (mkObjectId "lookup" n (s.lastObjectId + 2)) = some em →
      clientOnMessage c
          (.event (mkObjectId "lookup" n (s.lastObjectId + 2)) ev args) =
        .ok (c, em.emit_ ev args)) := by
  have hs1 : mapGet (afterLookup s n o).services n = some o := hs
  have hl1 : (afterLookup s n o).lastObjectId = s.lastObjectId + 1 := rfl
  refine ⟨onMessage_lookup_ok s n i1 o hs, ?_, ?_, ?_, ?_⟩
  · have := onMessage_lookup_ok (afterLookup s n o) n i2 o hs1
    rw [hl1] at this
    exact this
  · intro heq
    have hseq := congrArg seqOf heq
    rw [seqOf_mkObjectId, seqOf_mkObjectId] at hseq
    omega
  · intro ev args
    show instanceEmit _ (.service n) ev args = _
    unfold instanceEmit afterLookup
    simp only [hl1]
    rw [mapGet_mapSet_self]
  · intro c em ev args hmem
    simp [clientOnMessage, hmem]

/-- Witness for C9 at a concrete server with one service. -/
theorem c9_second_lookup_steals_events_witness :
    onMessage witnessServer (.lookup "Settings" 1) =
      .ok (afterLookup witnessServer "Settings" counterClass,
        [.reply 1 (describe counterClass)
          (mkObjectId "lookup" "Settings" 1)]) ∧
    onMessage (afterLookup witnessServer "Settings" counterClass)
        (.lookup "Settings" 2) =
      .ok (afterLookup (afterLookup witnessServer "Settings" counterClass)
          "Settings" counterClass,
        [.reply 2 (describe counterClass)
          (mkObjectId "lookup" "Settings" 2)]) ∧
    mkObjectId "lookup" "Settings" 1 ≠ mkObjectId "lookup" "Settings" 2 ∧
    (∀ ev args,
      instanceEmit
          (afterLookup (afterLookup witnessServer "Settings" counterClass)
            "Settings" counterClass) (.service "Settings") ev args =
        some (.event (mkObjectId "lookup" "Settings" 2) ev args)) ∧
    (∀ (c : ClientState) (em : EventEmitter) (ev : String) (args : List Val),
      mapGet c.objects (mkObjectId "lookup" "Settings" 2) = some em →
      clientOnMessage c (.event (mkObjectId "lookup" "Settings" 2) ev args) =
        .ok (c, em.emit_ ev args)) :=
  c9_second_lookup_steals_events witnessServer "Settings" 1 2
    counterClass rfl

/-- C10: if an event message (one carrying no id) arrives at the
client's `dispatchMessage` and its objectId has no proxy in the client's
local registry, `dispatchMessage` throws (a TypeError from calling
`.emit_` on `undefined`) rather than silently ignoring the event. -/
theorem c10_event_unknown_proxy_throws (c : ClientState)
    (oid method : String) (args : List Val)
    (h : mapGet c.objects oid = none) :
    clientOnMessage c (.event oid method args) = .error .typeError := by
  simp [clientOnMessage, h]

/-- Witness for C10: a client that disposed its only proxy throws on a
late event addressed to it. -/
theorem c10_event_unknown_proxy_throws_witness :
    clientOnMessage
        (disposeProxy (wrap Client.new "lookup#Settings#1#" ["get"])
          "lookup#Settings#1#").1
        (.event "lookup#Settings#1#" "changed" []) = .error .typeError :=
  c10_event_unknown_proxy_throws _ "lookup#Settings#1#" "changed" [] rfl
